import Mathlib

/-!
Verification of the S3-lib bulk-operation client (src/s3lib/s3asyncclient.py and
src/s3lib/s3syncclient.py) against its natural-language specification.

The Python code is shallowly embedded: remote calls are modelled through an
explicit service state (the sorted list of keys the service holds) or through
an oracle fixing each remote call's outcome, and each operation is a pure Lean
function returning the trace of remote calls it issues together with its
Python-level result (normal return or raised exception).
-/

namespace S3Lib

/-- Model of the Python values that reach the validation helper: strings,
integers (standing for any non-string value) and None. -/
inductive PyVal where
  | str (s : String)
  | int (n : Int)
  | noneVal
deriving DecidableEq

/-- Python-level exceptions raised by the embedded code paths. -/
inductive PyErr where
  | typeError
  | valueError
  | indexError
  | nameError
  | clientError (code msg : String)
deriving DecidableEq

/-- Characters treated as whitespace by Python's str.strip (ASCII subset). -/
def isPySpace (c : Char) : Bool :=
  c = ' ' || c = '\t' || c = '\n' || c = '\r' || c = '\x0b' || c = '\x0c'

/-- Model of Python's str.strip: drop whitespace from both ends. -/
def pyStrip (s : String) : String :=
  String.mk (((s.toList.dropWhile isPySpace).reverse.dropWhile isPySpace).reverse)

/-- Embeds AsyncS3Client._validate_str_param (s3asyncclient.py lines 64-80,
identical in s3syncclient.py lines 69-85): TypeError when the value is not a
string, ValueError when it strips to the empty string. -/
def validate_str_param (v : PyVal) : Except PyErr Unit :=
  match v with
  | .str s => if pyStrip s = "" then .error .valueError else .ok ()
  | _ => .error .typeError

/-- The single piece of mutable client state: the active bucket name
(self._bucket_name). -/
structure ClientState where
  bucket : String
deriving DecidableEq

/-- Embeds AsyncS3Client.set_bucket_name (s3asyncclient.py lines 418-430) and
the SyncS3Client.bucket_name setter (s3syncclient.py lines 55-67): validate the
argument, and only on success assign the new bucket under the lock. -/
def set_bucket_name (st : ClientState) (v : PyVal) : ClientState × Except PyErr Unit :=
  match validate_str_param v with
  | .error e => (st, .error e)
  | .ok _ =>
    match v with
    | .str s => ({ bucket := s }, .ok ())
    | _ => (st, .error .typeError)

/-- Embeds the bucket-relevant part of the constructors (s3asyncclient.py
lines 14-46, s3syncclient.py lines 10-41): the bucket_name argument is
validated before being stored. -/
def mkClient (v : PyVal) : Except PyErr ClientState :=
  match validate_str_param v with
  | .error e => .error e
  | .ok _ =>
    match v with
    | .str s => .ok { bucket := s }
    | _ => .error .typeError

/-! ### Key listing and pagination (get_keys_prefix) -/

/-- Executable lexicographic comparison on character lists, standing for the
byte-wise key order the S3 service sorts listings by. -/
def charsLtb : List Char → List Char → Bool
  | [], [] => false
  | [], _ :: _ => true
  | _ :: _, [] => false
  | a :: as, b :: bs => if a < b then true else if b < a then false else charsLtb as bs

/-- Lexicographic strict order on keys. -/
def strLtb (a b : String) : Bool := charsLtb a.toList b.toList

/-- The strict key order as a relation. -/
def strLt (a b : String) : Prop := strLtb a b = true

instance (a b : String) : Decidable (strLt a b) :=
  inferInstanceAs (Decidable (strLtb a b = true))

/-- Executable prefix test on character lists. -/
def isPfxOfb : List Char → List Char → Bool
  | [], _ => true
  | _ :: _, [] => false
  | a :: as, b :: bs => a = b && isPfxOfb as bs

/-- Whether key k starts with p, the service-side Prefix filter. -/
def strIsPfx (p k : String) : Bool := isPfxOfb p.toList k.toList

/-- The keys of the service matching a prefix, in service order. The service
state svc is the full sorted key list of the active bucket. -/
def keysWithPfx (svc : List String) (p : String) : List String :=
  svc.filter (fun k => strIsPfx p k)

/-- Embeds one list_objects_v2 page call (s3asyncclient.py lines 295 and
299-304, s3syncclient.py lines 221 and 224-229): the service returns the first
at-most-100 keys matching the prefix that sort strictly after StartAfter. -/
def listObjectsPage (svc : List String) (p : String) (startAfter : Option String) :
    List String :=
  match startAfter with
  | none => (keysWithPfx svc p).take 100
  | some s => ((keysWithPfx svc p).filter (fun k => strLtb s k)).take 100

/-- Embeds the while loop of get_keys_prefix (s3asyncclient.py lines 296-304,
s3syncclient.py lines 222-229): while the page is non-empty, append it and
request the next page with StartAfter equal to the last accumulated key. The
fuel argument only bounds the iteration count; the correctness theorem shows
the initial fuel is never exhausted. -/
def getKeysLoop (svc : List String) (p : String) :
    List String → List String → Nat → Option (List String)
  | _, _, 0 => none
  | keys, resp, fuel + 1 =>
    if resp.isEmpty then some keys
    else
      let keys2 := keys ++ resp
      match keys2.getLast? with
      | none => none
      | some last => getKeysLoop svc p keys2 (listObjectsPage svc p (some last)) fuel

/-- Embeds AsyncS3Client.get_keys_prefix (s3asyncclient.py lines 281-305) and
SyncS3Client.get_keys_prefix (s3syncclient.py lines 208-230). -/
def get_keys_prefix_impl (svc : List String) (p : String) : Option (List String) :=
  getKeysLoop svc p [] (listObjectsPage svc p none) (svc.length + 1)

/-! ### Multipart upload (upload_file_multipart) -/

/-- Remote calls issued by upload_file_multipart. -/
inductive MPEvent where
  | uploadWholeFile
  | createCall
  | partCall (uploadId : String) (partNumber : Nat)
  | completeCall (uploadId : String)
  | abortCall (uploadId : String)
deriving DecidableEq

/-- Python-level outcome of upload_file_multipart: normal return, a propagated
botocore ClientError, or the NameError hit by the except handler when
upload_id is still unbound. -/
inductive MPResult where
  | normal
  | raisedClient (code msg : String)
  | raisedName
deriving DecidableEq

/-- Oracle fixing the outcome of each remote call of one multipart upload:
create_multipart_upload (an uploadId or a ClientError), each upload_part (an
ETag or a ClientError, by part number), complete_multipart_upload and
abort_multipart_upload. -/
structure MPOracle where
  createRes : Except (String × String) String
  partRes : Nat → Except (String × String) String
  completeRes : Except (String × String) Unit
  abortRes : Except (String × String) Unit

/-- The 5 MiB service floor on part size (s3asyncclient.py line 483,
s3syncclient.py line 321). -/
def minPartSize : Nat := 5 * 1024 * 1024

/-- The part size computed by the code (s3asyncclient.py line 500,
s3syncclient.py line 336): max(min_part_size, file_size // 10_000), with
Python floor division. -/
def multipartPartSize (fileSize : Nat) : Nat := max minPartSize (fileSize / 10000)

/-- Number of chunks the sequential read loop yields for a file of the given
size: ceil(fileSize / chunkSize), the last chunk possibly shorter. -/
def numChunks (fileSize chunkSize : Nat) : Nat := (fileSize + chunkSize - 1) / chunkSize

/-- The part size the spec claims: max(minimumPartSize, ceil(fileSize / 10000)). -/
def claimedPartSize (fileSize : Nat) : Nat := max minPartSize ((fileSize + 10000 - 1) / 10000)

/-- The part-upload loop (s3asyncclient.py lines 502-513, s3syncclient.py
lines 338-350): upload chunks as parts i, i+1, ... until n chunks are done or
an upload_part call raises; returns the trace of part calls and the first
error, if any. -/
def runParts (o : MPOracle) (uid : String) : Nat → Nat → List MPEvent × Option (String × String)
  | _, 0 => ([], none)
  | i, n + 1 =>
    match o.partRes i with
    | .error e => ([.partCall uid i], some e)
    | .ok _ =>
      let rest := runParts o uid (i + 1) n
      (.partCall uid i :: rest.1, rest.2)

/-- Embeds upload_file_multipart (s3asyncclient.py lines 467-530,
s3syncclient.py lines 305-369) for a file of the given size, against an
oracle for the remote calls. Control flow of the source: files under 5 MiB
go through the plain upload; otherwise create_multipart_upload runs inside a
try block whose except ClientError handler prints and calls
abort_multipart_upload without re-raising; if create itself raised, the
handler's reference to upload_id hits an unbound local and raises NameError
before any abort call is issued; an abort call that itself raises ClientError
propagates out of the handler. finishMP is the tail of that control flow once
create has succeeded with uploadId uid and the part loop returned pr: on a
part failure the except handler aborts and returns normally (or propagates
the abort call's own ClientError); otherwise complete runs, and on its
failure the handler likewise aborts. -/
def finishMP (o : MPOracle) (uid : String)
    (pr : List MPEvent × Option (String × String)) : List MPEvent × MPResult :=
  match pr.2 with
  | some _ =>
    match o.abortRes with
    | .ok _ => (.createCall :: pr.1 ++ [.abortCall uid], .normal)
    | .error e2 => (.createCall :: pr.1 ++ [.abortCall uid], .raisedClient e2.1 e2.2)
  | none =>
    match o.completeRes with
    | .ok _ => (.createCall :: pr.1 ++ [.completeCall uid], .normal)
    | .error _ =>
      match o.abortRes with
      | .ok _ =>
        (.createCall :: pr.1 ++ [.completeCall uid, .abortCall uid], .normal)
      | .error e2 =>
        (.createCall :: pr.1 ++ [.completeCall uid, .abortCall uid],
          .raisedClient e2.1 e2.2)

/-- Embeds upload_file_multipart itself: small files take the plain upload
path; otherwise create runs, a create failure raises NameError in the
handler, and a successful create hands off to the part loop and finishMP. -/
def upload_file_multipart (o : MPOracle) (fileSize : Nat) : List MPEvent × MPResult :=
  if fileSize < minPartSize then ([.uploadWholeFile], .normal)
  else
    match o.createRes with
    | .error _ => ([.createCall], .raisedName)
    | .ok uid => finishMP o uid (runParts o uid 1 (numChunks fileSize (multipartPartSize fileSize)))

/-- Oracle where every call succeeds except complete_multipart_upload. -/
def mpOracleCompleteFails : MPOracle :=
  { createRes := .ok ("uploadId1")
  , partRes := fun _ => .ok ("etag")
  , completeRes := .error (("InternalError"), ("complete failed"))
  , abortRes := .ok () }

/-- Oracle where the first upload_part call fails. -/
def mpOraclePartFails : MPOracle :=
  { createRes := .ok ("uploadId2")
  , partRes := fun _ => .error (("InternalError"), ("part failed"))
  , completeRes := .ok ()
  , abortRes := .ok () }

/-! ### Copy-name derivation and prefix copy -/

/-- Splits a character list at its last dot, if any: the Python
rsplit('.', 1) used by the async copy_object_prefix (s3asyncclient.py
line 190). -/
def rsplitDotOnce : List Char → Option (List Char × List Char)
  | [] => none
  | c :: rest =>
    match rsplitDotOnce rest with
    | some (a, b) => some (c :: a, b)
    | none => if c = '.' then some ([], rest) else none

/-- Python obj.rsplit('.', 1): one or two components. -/
def pyRsplitDot (s : String) : List String :=
  match rsplitDotOnce s.toList with
  | none => [s]
  | some (a, b) => [String.mk a, String.mk b]

/-- Splits a character list at every dot: the Python split('.') used by the
sync copy_file_prefix (s3syncclient.py line 164). -/
def splitOnDotChars : List Char → List (List Char)
  | [] => [[]]
  | c :: rest =>
    let r := splitOnDotChars rest
    if c = '.' then [] :: r
    else
      match r with
      | [] => [[c]]
      | h :: t => (c :: h) :: t

/-- Python obj.split('.'). -/
def pySplitOnDot (s : String) : List String := (splitOnDotChars s.toList).map String.mk

/-- The destination key the async copy_object_prefix derives when original
names are not kept (s3asyncclient.py lines 188-191): rsplit on the last dot,
then destination_prefix + source_list[0] + "_copy." + source_list[1]; a
single-component split makes source_list[1] raise IndexError. -/
def asyncCopyDestName (destPfx obj : String) : Except PyErr String :=
  match pyRsplitDot obj with
  | [s0, s1] => .ok (destPfx ++ s0 ++ ("_copy.") ++ s1)
  | _ => .error .indexError

/-- The destination key the sync copy_file_prefix derives (s3syncclient.py
lines 163-165): split on every dot, then destination_prefix +
source_list[0] + "_copy." + source_list[1]; a single-component split makes
source_list[1] raise IndexError, and any components past the second are
silently dropped. -/
def syncCopyDestName (destPfx obj : String) : Except PyErr String :=
  match pySplitOnDot obj with
  | s0 :: s1 :: _ => .ok (destPfx ++ s0 ++ ("_copy.") ++ s1)
  | _ => .error .indexError

/-- Remote copy calls issued by the prefix-copy operations. -/
inductive CopyEvent where
  | copyCall (src dst : String)
deriving DecidableEq

/-- The async destination_keys loop (s3asyncclient.py lines 187-191): derive
every destination name before any copy task is created; the first IndexError
aborts the whole operation. -/
def deriveDestKeys (destPfx : String) : List String → Except PyErr (List String)
  | [] => .ok []
  | k :: ks =>
    match asyncCopyDestName destPfx k with
    | .error e => .error e
    | .ok d =>
      match deriveDestKeys destPfx ks with
      | .error e => .error e
      | .ok ds => .ok (d :: ds)

/-- Embeds AsyncS3Client.copy_object_prefix (s3asyncclient.py lines 136-203)
with keep_original_name = False, after argument validation: list the keys,
derive all destination names, then dispatch one copy task per key. Returns
none only if the key listing diverges (impossible over a sorted service). -/
def copy_object_prefix_impl (svc : List String) (p destPfx : String) :
    Option (List CopyEvent × Except PyErr Unit) :=
  match get_keys_prefix_impl svc p with
  | none => none
  | some objs =>
    some (match deriveDestKeys destPfx objs with
      | .error e => ([], .error e)
      | .ok ds => (List.zipWith (fun a b => CopyEvent.copyCall a b) objs ds, .ok ()))

/-- The sync per-key loop of copy_file_prefix (s3syncclient.py lines
163-170): derive the destination name of each key and immediately copy it,
so an IndexError stops the loop after the earlier copies already ran. -/
def syncCopyLoop (destPfx : String) : List String → List CopyEvent × Except PyErr Unit
  | [] => ([], .ok ())
  | k :: ks =>
    match syncCopyDestName destPfx k with
    | .error e => ([], .error e)
    | .ok d =>
      let rest := syncCopyLoop destPfx ks
      (.copyCall k d :: rest.1, rest.2)

/-- Embeds SyncS3Client.copy_file_prefix (s3syncclient.py lines 129-170)
after argument validation. -/
def copy_file_prefix_impl (svc : List String) (p destPfx : String) :
    Option (List CopyEvent × Except PyErr Unit) :=
  match get_keys_prefix_impl svc p with
  | none => none
  | some objs => some (syncCopyLoop destPfx objs)

/-! ### Deletion (delete_object, delete_object_prefix) -/

/-- Remote delete calls. -/
inductive DelEvent where
  | deleteCall (k : String)
deriving DecidableEq

/-- Embeds AsyncS3Client.delete_object (s3asyncclient.py lines 205-219):
validate the key, check existence through a full key listing
(is_object_exist, lines 343-356), and issue the remote delete only when the
key is present. -/
def delete_object_impl (svc : List String) (k : String) :
    Option (List DelEvent × Except PyErr Unit) :=
  if pyStrip k = "" then some ([], .error .valueError)
  else
    match get_keys_prefix_impl svc ("") with
    | none => none
    | some allKeys => some (if k ∈ allKeys then [.deleteCall k] else [], .ok ())

/-- The fan-out of delete_object_prefix (s3asyncclient.py lines 233-237): one
delete_object task per listed key; all tasks run, their delete calls are
collected. -/
def deleteTasks (svc : List String) : List String → Option (List DelEvent × Except PyErr Unit)
  | [] => some ([], .ok ())
  | k :: ks =>
    match delete_object_impl svc k, deleteTasks svc ks with
    | some (t, .ok _), some (ts, r) => some (t ++ ts, r)
    | some (t, .error e), some (ts, _) => some (t ++ ts, .error e)
    | _, _ => none

/-- Embeds AsyncS3Client.delete_object_prefix (s3asyncclient.py lines
221-237) after argument validation. -/
def delete_object_prefix_impl (svc : List String) (p : String) :
    Option (List DelEvent × Except PyErr Unit) :=
  match get_keys_prefix_impl svc p with
  | none => none
  | some keys => deleteTasks svc keys

/-! ### Bounded concurrency (semaphore of 5) -/

/-- Scheduler state for a fan-out of independent remote tasks: tasks not yet
started, remote calls in flight, tasks finished. -/
structure RunnerState where
  pending : Nat
  inflight : Nat
  done : Nat
deriving DecidableEq

/-- Steps available to the copy fan-out: copy_object wraps its remote call in
async with self.semaphore (s3asyncclient.py lines 128-134), a semaphore of
capacity 5 (line 50), so a task starts its remote call only when fewer than 5
are in flight. -/
inductive GatedStep : RunnerState → RunnerState → Prop where
  | start (s : RunnerState) : 0 < s.pending → s.inflight < 5 →
      GatedStep s ⟨s.pending - 1, s.inflight + 1, s.done⟩
  | finish (s : RunnerState) : 0 < s.inflight →
      GatedStep s ⟨s.pending, s.inflight - 1, s.done + 1⟩

/-- Steps available to the delete fan-out: delete_object (s3asyncclient.py
lines 205-219) performs its remote calls without acquiring the semaphore, so
a pending task can always start. -/
inductive UngatedStep : RunnerState → RunnerState → Prop where
  | start (s : RunnerState) : 0 < s.pending →
      UngatedStep s ⟨s.pending - 1, s.inflight + 1, s.done⟩
  | finish (s : RunnerState) : 0 < s.inflight →
      UngatedStep s ⟨s.pending, s.inflight - 1, s.done + 1⟩

/-- Reflexive-transitive closure of a step relation: the states a fan-out
scheduler can reach. -/
def Reaches (step : RunnerState → RunnerState → Prop) : RunnerState → RunnerState → Prop :=
  Relation.ReflTransGen step

/-! ### Bucket reads during an in-flight operation -/

/-- Embeds the paging loop of get_keys_prefix with the bucket re-read made
explicit: the n-th remote call reads self.bucket_name at that moment
(s3asyncclient.py lines 295 and 299-304 both evaluate self.bucket_name
freshly), modelled by bucketAt n, and lists the keys of the bucket it read
(svcOf). Returns the (bucket, startAfter) pair of every page call issued. -/
def getKeysLoopBuckets (svcOf : String → List String) (bucketAt : Nat → String)
    (p : String) :
    Nat → List String → List String → List (String × Option String) → Nat →
      Option (List (String × Option String))
  | _, _, _, _, 0 => none
  | i, keys, resp, calls, fuel + 1 =>
    if resp.isEmpty then some calls
    else
      match (keys ++ resp).getLast? with
      | none => none
      | some last =>
        getKeysLoopBuckets svcOf bucketAt p (i + 1) (keys ++ resp)
          (listObjectsPage (svcOf (bucketAt i)) p (some last))
          (calls ++ [(bucketAt i, some last)]) fuel

/-- The page calls issued by one run of get_keys_prefix when the active
bucket seen by the n-th remote call is bucketAt n (a concurrent
set_bucket_name makes bucketAt non-constant). -/
def getKeysCalls (svcOf : String → List String) (bucketAt : Nat → String)
    (p : String) (fuel : Nat) : Option (List (String × Option String)) :=
  getKeysLoopBuckets svcOf bucketAt p 1 []
    (listObjectsPage (svcOf (bucketAt 0)) p none) [(bucketAt 0, none)] fuel

/-- A two-bucket scenario: bucket A holds one key, bucket B is empty, and a
concurrent bucket switch from A to B lands between the first and second page
call. -/
def switchSvcOf : String → List String := fun b => if b = ("A") then [("k1")] else []

/-- The bucket value read by the n-th remote call in the switch scenario. -/
def switchBucketAt : Nat → String := fun n => if n = 0 then ("A") else ("B")

theorem validate_str_param_ok_iff (v : PyVal) :
    validate_str_param v = .ok () ↔ ∃ s, v = .str s ∧ pyStrip s ≠ "" := by
  cases v with
  | str s =>
    simp only [validate_str_param]
    by_cases h : pyStrip s = "" <;> simp [h]
  | int n => simp [validate_str_param]
  | noneVal => simp [validate_str_param]

/-- Claim C8: from construction onward the active bucket is a non-empty
(non-whitespace) string: construction and set_bucket_name reject non-string
arguments with TypeError and blank strings with ValueError, leave the bucket
unchanged on rejection, the invariant is preserved by every call, and a
successful switch to "b" is immediately readable as "b". -/
theorem bucket_name_invariant :
    (∀ v st, mkClient v = .ok st → pyStrip st.bucket ≠ "")
    ∧ (∀ st v, (∀ s, v ≠ PyVal.str s) →
        set_bucket_name st v = (st, .error .typeError))
    ∧ (∀ st s, pyStrip s = "" →
        set_bucket_name st (.str s) = (st, .error .valueError))
    ∧ (∀ st v, pyStrip st.bucket ≠ "" → pyStrip ((set_bucket_name st v).1).bucket ≠ "")
    ∧ (∀ st, pyStrip ("b") ≠ "" ∧
        set_bucket_name st (.str ("b")) = ({ bucket := ("b") }, .ok ())) := by
  refine ⟨?_, ?_, ?_, ?_, ?_⟩
  · intro v st h
    cases v with
    | str s =>
      simp only [mkClient, validate_str_param] at h
      by_cases hs : pyStrip s = ""
      · simp [hs] at h
      · simp only [hs, if_false] at h
        cases h
        simpa using hs
    | int n => simp [mkClient, validate_str_param] at h
    | noneVal => simp [mkClient, validate_str_param] at h
  · intro st v h
    cases v with
    | str s => exact absurd rfl (h s)
    | int n => simp [set_bucket_name, validate_str_param]
    | noneVal => simp [set_bucket_name, validate_str_param]
  · intro st s h
    simp [set_bucket_name, validate_str_param, h]
  · intro st v hst
    cases v with
    | str s =>
      simp only [set_bucket_name, validate_str_param]
      by_cases hs : pyStrip s = ""
      · simpa [hs] using hst
      · simp [hs]
    | int n => simpa [set_bucket_name, validate_str_param] using hst
    | noneVal => simpa [set_bucket_name, validate_str_param] using hst
  · intro st
    constructor
    · decide
    · simp [set_bucket_name, validate_str_param, pyStrip, isPySpace]

/-- Witness for bucket_name_invariant: instantiate every hypothesis-bearing
conjunct at concrete values. -/
theorem bucket_name_invariant_witness :
    mkClient (.str ("mybucket")) = .ok { bucket := ("mybucket") }
    ∧ pyStrip (ClientState.mk ("mybucket")).bucket ≠ ""
    ∧ set_bucket_name { bucket := ("mybucket") } (.int 123) =
        ({ bucket := ("mybucket") }, .error .typeError)
    ∧ set_bucket_name { bucket := ("mybucket") } (.str ("  ")) =
        ({ bucket := ("mybucket") }, .error .valueError) := by
  refine ⟨by rfl, ?_, ?_, ?_⟩
  · exact bucket_name_invariant.1 (.str ("mybucket")) { bucket := ("mybucket") } (by rfl)
  · exact bucket_name_invariant.2.1 { bucket := ("mybucket") } (.int 123)
      (by intro s h; cases h)
  · exact bucket_name_invariant.2.2.1 { bucket := ("mybucket") } ("  ") (by decide)


theorem charsLtb_irrefl (cs : List Char) : charsLtb cs cs = false := by
  induction cs with
  | nil => rfl
  | cons a as ih => simp [charsLtb, ih]

theorem charsLtb_asymm : ∀ as bs, charsLtb as bs = true → charsLtb bs as = false := by
  intro as
  induction as with
  | nil =>
    intro bs h
    cases bs with
    | nil => simp [charsLtb] at h
    | cons b bs => rfl
  | cons a as ih =>
    intro bs h
    cases bs with
    | nil => simp [charsLtb] at h
    | cons b bs =>
      simp only [charsLtb] at h ⊢
      by_cases hab : a < b
      · simp [hab, lt_asymm hab]
      · by_cases hba : b < a
        · simp [hab, hba] at h
        · simp only [hab, hba, if_false] at h ⊢
          simp [ih bs h]

theorem strLtb_irrefl (s : String) : strLtb s s = false := charsLtb_irrefl s.toList

theorem strLtb_asymm (a b : String) (h : strLtb a b = true) : strLtb b a = false :=
  charsLtb_asymm a.toList b.toList h

theorem filter_lt_last (A B : List String) (x : String)
    (hsorted : (A ++ B).Pairwise strLt) (hlast : A.getLast? = some x) :
    (A ++ B).filter (fun k => strLtb x k) = B := by
  obtain ⟨A', rfl⟩ := List.getLast?_eq_some_iff.mp hlast
  rw [List.append_assoc] at hsorted ⊢
  rw [List.pairwise_append] at hsorted
  obtain ⟨hA', hxB, hcross⟩ := hsorted
  simp only [List.singleton_append] at hxB
  rw [List.pairwise_cons] at hxB
  obtain ⟨hxb, _⟩ := hxB
  rw [List.filter_append]
  have h1 : A'.filter (fun k => strLtb x k) = [] := by
    rw [List.filter_eq_nil_iff]
    intro a ha
    have hax : strLt a x := hcross a ha x (by simp)
    simp [strLtb_asymm a x hax]
  have h2 : ([x] ++ B).filter (fun k => strLtb x k) = B := by
    simp only [List.singleton_append, List.filter_cons, strLtb_irrefl]
    simp only [Bool.false_eq_true, if_false]
    exact List.filter_eq_self.mpr fun b hb => hxb b hb
  rw [h1, h2, List.nil_append]

theorem getKeysLoop_correct (svc : List String) (p : String) :
    ∀ (fuel : Nat) (A B : List String), keysWithPfx svc p = A ++ B →
      (A ++ B).Pairwise strLt → B.length < fuel →
      getKeysLoop svc p A (B.take 100) fuel = some (A ++ B) := by
  intro fuel
  induction fuel with
  | zero => intro A B _ _ h; omega
  | succ fuel ih =>
    intro A B hL hsorted hlen
    cases B with
    | nil => simp [getKeysLoop]
    | cons b B' =>
      rw [getKeysLoop]
      have hne : ((b :: B').take 100).isEmpty = false := by
        simp [List.take]
      rw [if_neg (by simp [hne])]
      have hkeysne : A ++ (b :: B').take 100 ≠ [] := by
        simp [List.take]
      have hsome : ∃ x, (A ++ (b :: B').take 100).getLast? = some x := by
        cases hgl : (A ++ (b :: B').take 100).getLast? with
        | none => exact absurd (List.getLast?_eq_none_iff.mp hgl) hkeysne
        | some x => exact ⟨x, rfl⟩
      obtain ⟨x, hx⟩ := hsome
      show (match (A ++ (b :: B').take 100).getLast? with
        | none => none
        | some last =>
            getKeysLoop svc p (A ++ (b :: B').take 100)
              (listObjectsPage svc p (some last)) fuel) = some (A ++ b :: B')
      rw [hx]
      have hsplit : A ++ (b :: B') = (A ++ (b :: B').take 100) ++ (b :: B').drop 100 := by
        rw [List.append_assoc, List.take_append_drop]
      have hpage : listObjectsPage svc p (some x) = ((b :: B').drop 100).take 100 := by
        show ((keysWithPfx svc p).filter (fun k => strLtb x k)).take 100
          = ((b :: B').drop 100).take 100
        rw [hL, hsplit]
        rw [filter_lt_last _ _ x (by rw [← hsplit]; exact hsorted) hx]
      show getKeysLoop svc p (A ++ (b :: B').take 100)
        (listObjectsPage svc p (some x)) fuel = some (A ++ b :: B')
      rw [hpage]
      have := ih (A ++ (b :: B').take 100) ((b :: B').drop 100)
        (by rw [hL, hsplit]) (by rw [← hsplit]; exact hsorted)
        (by simp only [List.length_drop, List.length_cons] at hlen ⊢; omega)
      rw [this, ← hsplit]

/-- Helper: over a strictly sorted service, the paging loop terminates within
its fuel and accumulates exactly the prefix-matching keys. -/
theorem get_keys_prefix_impl_eq (svc : List String) (p : String)
    (hsorted : svc.Pairwise strLt) :
    get_keys_prefix_impl svc p = some (keysWithPfx svc p) := by
  have hLsorted : (keysWithPfx svc p).Pairwise strLt :=
    List.Pairwise.filter _ hsorted
  have hlen : (keysWithPfx svc p).length < svc.length + 1 := by
    have := List.length_filter_le (fun k => strIsPfx p k) svc
    simpa [keysWithPfx] using Nat.lt_succ_of_le this
  have hloop := getKeysLoop_correct svc p (svc.length + 1) [] (keysWithPfx svc p)
    (by simp) (by simpa using hLsorted) (by simpa using hlen)
  unfold get_keys_prefix_impl listObjectsPage
  simpa using hloop

/-- Claim C3: for a service holding keys sorted strictly ascending and paging
them at most 100 at a time, get_keys_prefix terminates and returns exactly the
keys matching the prefix: complete, each key exactly once, in ascending order;
each non-empty page is appended and the next page is requested with StartAfter
equal to the last accumulated key. -/
theorem get_keys_prefix_correct (svc : List String) (p : String)
    (hsorted : svc.Pairwise strLt) :
    ∃ ks, get_keys_prefix_impl svc p = some ks
      ∧ ks = keysWithPfx svc p
      ∧ ks.Pairwise strLt
      ∧ (∀ k, k ∈ ks ↔ k ∈ svc ∧ strIsPfx p k = true)
      ∧ ∀ k ∈ ks, ks.count k = 1 := by
  have hLsorted : (keysWithPfx svc p).Pairwise strLt :=
    List.Pairwise.filter _ hsorted
  refine ⟨keysWithPfx svc p, get_keys_prefix_impl_eq svc p hsorted, rfl, hLsorted, ?_, ?_⟩
  · intro k
    simp [keysWithPfx, List.mem_filter]
  · intro k hk
    have hirr : ∀ a : String, ¬ strLt a a := fun a h => by
      simp [strLt, strLtb_irrefl] at h
    have : IsIrrefl String strLt := ⟨hirr⟩
    exact List.count_eq_one_of_mem (List.Pairwise.nodup hLsorted) hk

/-- Witness for get_keys_prefix_correct at a concrete sorted service. -/
theorem get_keys_prefix_correct_witness :
    List.Pairwise strLt [("a/1.txt"), ("a/2.txt"), ("b/1.txt")]
    ∧ ∃ ks, get_keys_prefix_impl [("a/1.txt"), ("a/2.txt"), ("b/1.txt")] ("a/") = some ks
      ∧ ks = keysWithPfx [("a/1.txt"), ("a/2.txt"), ("b/1.txt")] ("a/")
      ∧ ks.Pairwise strLt
      ∧ (∀ k, k ∈ ks ↔ k ∈ [("a/1.txt"), ("a/2.txt"), ("b/1.txt")] ∧ strIsPfx ("a/") k = true)
      ∧ ∀ k ∈ ks, ks.count k = 1 :=
  ⟨by decide, get_keys_prefix_correct [("a/1.txt"), ("a/2.txt"), ("b/1.txt")] ("a/") (by decide)⟩

theorem runParts_events (o : MPOracle) (uid : String) :
    ∀ n i e, e ∈ (runParts o uid i n).1 → ∃ j, e = MPEvent.partCall uid j := by
  intro n
  induction n with
  | zero => intro i e h; simp [runParts] at h
  | succ n ih =>
    intro i e h
    rw [runParts] at h
    cases hres : o.partRes i with
    | error err =>
      rw [hres] at h
      simp at h
      exact ⟨i, h⟩
    | ok tag =>
      rw [hres] at h
      simp at h
      cases h with
      | inl h => exact ⟨i, h⟩
      | inr h => exact ih (i + 1) e h

theorem runParts_count_complete (o : MPOracle) (uid u : String) (n i : Nat) :
    (runParts o uid i n).1.count (MPEvent.completeCall u) = 0 := by
  rw [List.count_eq_zero]
  intro hmem
  obtain ⟨j, hj⟩ := runParts_events o uid n i _ hmem
  cases hj

theorem runParts_count_abort (o : MPOracle) (uid u : String) (n i : Nat) :
    (runParts o uid i n).1.count (MPEvent.abortCall u) = 0 := by
  rw [List.count_eq_zero]
  intro hmem
  obtain ⟨j, hj⟩ := runParts_events o uid n i _ hmem
  cases hj

/-- Claim C1 counterexample: when every part upload succeeds but
complete_multipart_upload fails, the code invokes complete and then also
abort with the same uploadId, so the number of complete-or-abort invocations
on that session is 2, not exactly 1. -/
theorem multipart_terminal_pair_counterexample :
    mpOracleCompleteFails.createRes = .ok ("uploadId1")
    ∧ minPartSize ≤ minPartSize
    ∧ (upload_file_multipart mpOracleCompleteFails minPartSize).1.count
        (MPEvent.completeCall ("uploadId1"))
      + (upload_file_multipart mpOracleCompleteFails minPartSize).1.count
        (MPEvent.abortCall ("uploadId1")) = 2 := by
  refine ⟨rfl, le_refl _, ?_⟩
  rfl

/-- Helper: once the session exists, finishMP ends it with exactly one of a
successful complete or a single abort invocation. -/
theorem finishMP_terminal (o : MPOracle) (uid : String)
    (pr : List MPEvent × Option (String × String))
    (hca : pr.1.count (MPEvent.completeCall uid) = 0)
    (hab : pr.1.count (MPEvent.abortCall uid) = 0)
    (hnm : MPEvent.completeCall uid ∉ pr.1) :
    ((finishMP o uid pr).1.count (MPEvent.completeCall uid) = 1
      ∧ o.completeRes = .ok ()
      ∧ (finishMP o uid pr).1.count (MPEvent.abortCall uid) = 0)
    ∨ ((finishMP o uid pr).1.count (MPEvent.abortCall uid) = 1
      ∧ ¬(MPEvent.completeCall uid ∈ (finishMP o uid pr).1
          ∧ o.completeRes = .ok ())) := by
  unfold finishMP
  split
  · split
    · right
      refine ⟨by simp [List.count_cons, List.count_append, hab], ?_⟩
      intro hc
      have hm := hc.1
      simp [hnm] at hm
    · right
      refine ⟨by simp [List.count_cons, List.count_append, hab], ?_⟩
      intro hc
      have hm := hc.1
      simp [hnm] at hm
  · split
    · rename_i u heq
      left
      refine ⟨?_, by cases u; exact heq, ?_⟩
      · simp [List.count_cons, List.count_append, hca]
      · simp [List.count_cons, List.count_append, hab]
    · rename_i e heq
      split
      · right
        refine ⟨by simp [List.count_cons, List.count_append, hab], ?_⟩
        intro hc
        rw [heq] at hc
        cases hc.2
      · right
        refine ⟨by simp [List.count_cons, List.count_append, hab], ?_⟩
        intro hc
        rw [heq] at hc
        cases hc.2

/-- Claim C1 (amended): for every execution of upload_file_multipart on a
file of size at least 5 MiB, if create_multipart_upload succeeds with some
uploadId then exactly one of the following holds: complete_multipart_upload
is invoked once, succeeds, and no abort is invoked; or abort_multipart_upload
is invoked exactly once and no successful complete occurs (this covers part
failure and completion failure alike); and if create_multipart_upload itself
fails, the only remote call issued is the create call, so no abort is
attempted. -/
theorem multipart_session_never_dangling (o : MPOracle) (fileSize : Nat)
    (hsize : minPartSize ≤ fileSize) :
    (∀ uid, o.createRes = .ok uid →
      ((upload_file_multipart o fileSize).1.count (MPEvent.completeCall uid) = 1
        ∧ o.completeRes = .ok ()
        ∧ (upload_file_multipart o fileSize).1.count (MPEvent.abortCall uid) = 0)
      ∨ ((upload_file_multipart o fileSize).1.count (MPEvent.abortCall uid) = 1
        ∧ ¬(MPEvent.completeCall uid ∈ (upload_file_multipart o fileSize).1
            ∧ o.completeRes = .ok ())))
    ∧ (∀ e, o.createRes = .error e →
        (upload_file_multipart o fileSize).1 = [MPEvent.createCall]) := by
  have hnotlt : ¬ fileSize < minPartSize := not_lt.mpr hsize
  constructor
  · intro uid hcreate
    have h1 : upload_file_multipart o fileSize
        = finishMP o uid (runParts o uid 1 (numChunks fileSize (multipartPartSize fileSize))) := by
      unfold upload_file_multipart
      rw [if_neg hnotlt, hcreate]
    rw [h1]
    refine finishMP_terminal o uid _
      (runParts_count_complete o uid uid _ _)
      (runParts_count_abort o uid uid _ _) ?_
    intro hmem
    obtain ⟨j, hj⟩ := runParts_events o uid _ _ _ hmem
    cases hj
  · intro e hcreate
    have h1 : upload_file_multipart o fileSize = ([MPEvent.createCall], MPResult.raisedName) := by
      unfold upload_file_multipart
      rw [if_neg hnotlt, hcreate]
    rw [h1]

/-- Witness for multipart_session_never_dangling: a concrete run where the
first part upload fails and abort is the unique terminal call. -/
theorem multipart_session_never_dangling_witness :
    minPartSize ≤ minPartSize
    ∧ mpOraclePartFails.createRes = .ok ("uploadId2")
    ∧ (((upload_file_multipart mpOraclePartFails minPartSize).1.count
          (MPEvent.completeCall ("uploadId2")) = 1
        ∧ mpOraclePartFails.completeRes = .ok ()
        ∧ (upload_file_multipart mpOraclePartFails minPartSize).1.count
          (MPEvent.abortCall ("uploadId2")) = 0)
      ∨ ((upload_file_multipart mpOraclePartFails minPartSize).1.count
          (MPEvent.abortCall ("uploadId2")) = 1
        ∧ ¬(MPEvent.completeCall ("uploadId2")
              ∈ (upload_file_multipart mpOraclePartFails minPartSize).1
            ∧ mpOraclePartFails.completeRes = .ok ()))) :=
  ⟨le_refl _, rfl,
    (multipart_session_never_dangling mpOraclePartFails minPartSize (le_refl _)).1
      ("uploadId2") rfl⟩

/-- Claim C2 counterexample: a part-upload failure after the session was
created leads to an abort and then a NORMAL return; the ClientError is
printed and swallowed, not re-raised, contradicting the claim that the
operation never returns normally on such a failure. -/
theorem multipart_error_swallowed_counterexample :
    mpOraclePartFails.partRes 1 = .error (("InternalError"), ("part failed"))
    ∧ MPEvent.partCall ("uploadId2") 1
        ∈ (upload_file_multipart mpOraclePartFails minPartSize).1
    ∧ MPEvent.abortCall ("uploadId2")
        ∈ (upload_file_multipart mpOraclePartFails minPartSize).1
    ∧ (upload_file_multipart mpOraclePartFails minPartSize).2 = .normal := by
  refine ⟨rfl, ?_, ?_, rfl⟩ <;> decide

/-- Helper: with pr.2 the part-loop failure and a failing remote step, the
except handler aborts and finishMP returns normally when abort succeeds. -/
theorem finishMP_swallow (o : MPOracle) (uid : String)
    (pr : List MPEvent × Option (String × String))
    (habort : o.abortRes = .ok ())
    (hfail : pr.2 ≠ none ∨ ∃ e, o.completeRes = .error e) :
    MPEvent.abortCall uid ∈ (finishMP o uid pr).1 ∧ (finishMP o uid pr).2 = .normal := by
  unfold finishMP
  split
  · split
    · exact ⟨by simp, rfl⟩
    · rename_i e2 heq
      rw [habort] at heq
      cases heq
  · rename_i hnone
    rcases hfail with h | ⟨e, hcomp⟩
    · exact absurd hnone h
    · split
      · rename_i u heq
        rw [hcomp] at heq
        cases heq
      · split
        · exact ⟨by simp, rfl⟩
        · rename_i e2 heq2
          rw [habort] at heq2
          cases heq2

/-- Claim C2 (amended): if a remote call (upload_part or
complete_multipart_upload) fails after the session was created,
upload_file_multipart invokes abort_multipart_upload on that uploadId, but it
does not re-raise the failure: provided the abort call itself succeeds, the
operation returns normally, the error having been logged and swallowed. -/
theorem multipart_abort_then_swallow (o : MPOracle) (fileSize : Nat)
    (hsize : minPartSize ≤ fileSize) (uid : String)
    (hcreate : o.createRes = .ok uid)
    (habort : o.abortRes = .ok ())
    (hfail : (runParts o uid 1 (numChunks fileSize (multipartPartSize fileSize))).2 ≠ none
      ∨ (∃ e, o.completeRes = .error e)) :
    MPEvent.abortCall uid ∈ (upload_file_multipart o fileSize).1
    ∧ (upload_file_multipart o fileSize).2 = .normal := by
  have hnotlt : ¬ fileSize < minPartSize := not_lt.mpr hsize
  have h1 : upload_file_multipart o fileSize
      = finishMP o uid (runParts o uid 1 (numChunks fileSize (multipartPartSize fileSize))) := by
    unfold upload_file_multipart
    rw [if_neg hnotlt, hcreate]
  rw [h1]
  exact finishMP_swallow o uid _ habort hfail

/-- Witness for multipart_abort_then_swallow at the part-failure oracle. -/
theorem multipart_abort_then_swallow_witness :
    minPartSize ≤ minPartSize
    ∧ mpOraclePartFails.createRes = .ok ("uploadId2")
    ∧ mpOraclePartFails.abortRes = .ok ()
    ∧ (MPEvent.abortCall ("uploadId2")
        ∈ (upload_file_multipart mpOraclePartFails minPartSize).1
      ∧ (upload_file_multipart mpOraclePartFails minPartSize).2 = .normal) :=
  ⟨le_refl _, rfl, rfl,
    multipart_abort_then_swallow mpOraclePartFails minPartSize (le_refl _)
      ("uploadId2") rfl rfl (Or.inl (by decide))⟩

/-- Claim C5: the code computes part_size with floor division
(max(5 MiB, file_size // 10000)), not the ceiling the claim states, and for
a file of 10000 * 5 MiB + 1 bytes this yields 10001 parts, exceeding the
service's 10000-parts-per-upload maximum that the code's own comment cites;
the claimed ceiling formula would instead give part size 5242881 and at most
10000 parts. -/
theorem multipart_part_size_floor_bug :
    multipartPartSize 52428800001 = 5242880
    ∧ claimedPartSize 52428800001 = 5242881
    ∧ numChunks 52428800001 (multipartPartSize 52428800001) = 10001
    ∧ 10000 < numChunks 52428800001 (multipartPartSize 52428800001)
    ∧ numChunks 52428800001 (claimedPartSize 52428800001) = 10000 := by
  refine ⟨rfl, rfl, rfl, by decide, rfl⟩

theorem rsplitDotOnce_eq_none (b : List Char) (h : '.' ∉ b) : rsplitDotOnce b = none := by
  induction b with
  | nil => rfl
  | cons c cs ih =>
    have hc : ¬ c = '.' := fun e => h (by simp [e])
    have hcs : '.' ∉ cs := fun hm => h (List.mem_cons_of_mem _ hm)
    rw [rsplitDotOnce, ih hcs]
    simp [hc]

theorem rsplitDotOnce_append (a : List Char) :
    ∀ b, '.' ∉ b → rsplitDotOnce (a ++ '.' :: b) = some (a, b) := by
  induction a with
  | nil =>
    intro b hb
    rw [List.nil_append, rsplitDotOnce, rsplitDotOnce_eq_none b hb]
    simp
  | cons c a ih =>
    intro b hb
    rw [List.cons_append, rsplitDotOnce, ih b hb]

theorem splitOnDotChars_ne_nil : ∀ cs, splitOnDotChars cs ≠ [] := by
  intro cs
  induction cs with
  | nil => simp [splitOnDotChars]
  | cons c rest ih =>
    rw [splitOnDotChars]
    by_cases hc : c = '.'
    · simp [hc]
    · simp only [hc, if_false]
      cases h : splitOnDotChars rest with
      | nil => simp
      | cons hh tt => simp

theorem splitOnDotChars_no_dot (cs : List Char) (h : '.' ∉ cs) :
    splitOnDotChars cs = [cs] := by
  induction cs with
  | nil => rfl
  | cons c rest ih =>
    have hc : ¬ c = '.' := fun e => h (by simp [e])
    have hrest : '.' ∉ rest := fun hm => h (List.mem_cons_of_mem _ hm)
    rw [splitOnDotChars]
    simp only [hc, if_false]
    rw [ih hrest]

theorem splitOnDotChars_append (a : List Char) :
    ∀ b, '.' ∉ a → splitOnDotChars (a ++ '.' :: b) = a :: splitOnDotChars b := by
  induction a with
  | nil =>
    intro b _
    rw [List.nil_append, splitOnDotChars]
    simp
  | cons c a ih =>
    intro b ha
    have hc : ¬ c = '.' := fun e => ha (by simp [e])
    have ha2 : '.' ∉ a := fun hm => ha (List.mem_cons_of_mem _ hm)
    rw [List.cons_append, splitOnDotChars]
    simp only [hc, if_false]
    rw [ih b ha2]

/-- Claim C6 counterexample: the sync copy_file_prefix splits on every dot
and keeps only the first two components, so the multi-dot key a.b.c gets the
copy name a_copy.b, not the a.b_copy.c the claim promises for every
prefix-copy operation; the async copy_object_prefix does produce a.b_copy.c. -/
theorem copy_dest_name_sync_counterexample :
    syncCopyDestName ("") ("a.b.c") = .ok ("a_copy.b")
    ∧ ("a_copy.b") ≠ ("a.b_copy.c")
    ∧ asyncCopyDestName ("") ("a.b.c") = .ok ("a.b_copy.c") := by
  refine ⟨rfl, by decide, rfl⟩

/-- Claim C6 (amended): the async copy_object_prefix derives the copy name by
splitting on the LAST dot only, so a multi-dot name a.b.c keeps its extension
(a.b_copy.c); the sync copy_file_prefix instead splits on EVERY dot and joins
the first two components, so any key with at least two dots loses everything
after its second dot (a.b.c becomes a_copy.b). -/
theorem copy_dest_name_split_behavior (d : String) (a b a2 b2 c2 : List Char)
    (hb : '.' ∉ b) (ha2 : '.' ∉ a2) (hb2 : '.' ∉ b2) :
    asyncCopyDestName d (String.mk (a ++ '.' :: b))
      = .ok (d ++ String.mk a ++ ("_copy.") ++ String.mk b)
    ∧ syncCopyDestName d (String.mk (a2 ++ '.' :: (b2 ++ '.' :: c2)))
      = .ok (d ++ String.mk a2 ++ ("_copy.") ++ String.mk b2) := by
  constructor
  · unfold asyncCopyDestName pyRsplitDot
    rw [show (String.mk (a ++ '.' :: b)).toList = a ++ '.' :: b from rfl]
    rw [rsplitDotOnce_append a b hb]
  · unfold syncCopyDestName pySplitOnDot
    rw [show (String.mk (a2 ++ '.' :: (b2 ++ '.' :: c2))).toList
      = a2 ++ '.' :: (b2 ++ '.' :: c2) from rfl]
    rw [splitOnDotChars_append a2 (b2 ++ '.' :: c2) ha2]
    rw [splitOnDotChars_append b2 c2 hb2]
    rfl

/-- Witness for copy_dest_name_split_behavior at the key a.b.c. -/
theorem copy_dest_name_split_behavior_witness :
    ('.' ∉ ['c']) ∧ ('.' ∉ ['a']) ∧ ('.' ∉ ['b'])
    ∧ (asyncCopyDestName ("") (String.mk (['a', '.', 'b'] ++ '.' :: ['c']))
        = .ok (("") ++ String.mk ['a', '.', 'b'] ++ ("_copy.") ++ String.mk ['c'])
      ∧ syncCopyDestName ("") (String.mk (['a'] ++ '.' :: (['b'] ++ '.' :: ['c'])))
        = .ok (("") ++ String.mk ['a'] ++ ("_copy.") ++ String.mk ['b'])) :=
  ⟨by decide, by decide, by decide,
    copy_dest_name_split_behavior ("") ['a', '.', 'b'] ['c'] ['a'] ['b'] ['c']
      (by decide) (by decide) (by decide)⟩

theorem asyncCopyDestName_no_dot (d k : String) (hk : '.' ∉ k.toList) :
    asyncCopyDestName d k = .error .indexError := by
  unfold asyncCopyDestName pyRsplitDot
  rw [rsplitDotOnce_eq_none k.toList hk]

theorem syncCopyDestName_no_dot (d k : String) (hk : '.' ∉ k.toList) :
    syncCopyDestName d k = .error .indexError := by
  unfold syncCopyDestName pySplitOnDot
  rw [splitOnDotChars_no_dot k.toList hk]
  rfl

theorem asyncCopyDestName_error_shape (d k : String) (e : PyErr)
    (h : asyncCopyDestName d k = .error e) : e = .indexError := by
  unfold asyncCopyDestName at h
  rcases hs : pyRsplitDot k with _ | ⟨s0, _ | ⟨s1, _ | _⟩⟩ <;> rw [hs] at h <;>
    first
      | (cases h; rfl)
      | cases h

theorem syncCopyDestName_error_shape (d k : String) (e : PyErr)
    (h : syncCopyDestName d k = .error e) : e = .indexError := by
  unfold syncCopyDestName at h
  rcases hs : pySplitOnDot k with _ | ⟨s0, _ | ⟨s1, t⟩⟩ <;> rw [hs] at h <;>
    first
      | (cases h; rfl)
      | cases h

theorem deriveDestKeys_error (d : String) :
    ∀ (ks : List String) (k : String), k ∈ ks → '.' ∉ k.toList →
      deriveDestKeys d ks = .error .indexError := by
  intro ks
  induction ks with
  | nil => intro k h; simp at h
  | cons k0 ks ih =>
    intro k hk hdot
    rw [deriveDestKeys]
    cases hd : asyncCopyDestName d k0 with
    | error e =>
      rw [asyncCopyDestName_error_shape d k0 e hd]
    | ok d0 =>
      have hkks : k ∈ ks := by
        rcases List.mem_cons.mp hk with he | hm
        · rw [he] at hdot
          rw [asyncCopyDestName_no_dot d k0 hdot] at hd
          cases hd
        · exact hm
      rw [ih k hkks hdot]

theorem syncCopyLoop_bad_key (d : String) :
    ∀ (ks : List String) (k : String), k ∈ ks → '.' ∉ k.toList →
      (syncCopyLoop d ks).2 = .error .indexError
      ∧ ∀ dst, CopyEvent.copyCall k dst ∉ (syncCopyLoop d ks).1 := by
  intro ks
  induction ks with
  | nil => intro k h; simp at h
  | cons k0 ks ih =>
    intro k hk hdot
    rw [syncCopyLoop]
    cases hd : syncCopyDestName d k0 with
    | error e =>
      rw [syncCopyDestName_error_shape d k0 e hd]
      exact ⟨rfl, by intro dst h; simp at h⟩
    | ok d0 =>
      have hkne : k ≠ k0 := by
        intro he
        rw [he] at hdot
        rw [syncCopyDestName_no_dot d k0 hdot] at hd
        cases hd
      have hkks : k ∈ ks := by
        rcases List.mem_cons.mp hk with he | hm
        · exact absurd he hkne
        · exact hm
      obtain ⟨ih1, ih2⟩ := ih k hkks hdot
      refine ⟨ih1, ?_⟩
      intro dst hmem
      simp only [List.mem_cons] at hmem
      rcases hmem with he | hm
      · exact hkne (by cases he; rfl)
      · exact ih2 dst hm

/-- Claim C10: a source key with no dot makes the auto-generated copy-name
derivation raise IndexError before any copy of that key is dispatched: the
async copy_object_prefix fails while building destination_keys, issuing no
copy at all; the sync copy_file_prefix stops at the first extensionless key
with IndexError, never having copied the offending key. -/
theorem copy_prefix_extensionless_index_error (svc : List String)
    (p d k : String) (hsorted : svc.Pairwise strLt) (hk : k ∈ svc)
    (hp : strIsPfx p k = true) (hdot : '.' ∉ k.toList) :
    copy_object_prefix_impl svc p d = some ([], .error .indexError)
    ∧ ∃ tr res, copy_file_prefix_impl svc p d = some (tr, res)
        ∧ res = .error .indexError
        ∧ ∀ dst, CopyEvent.copyCall k dst ∉ tr := by
  have hmem : k ∈ keysWithPfx svc p :=
    List.mem_filter.mpr ⟨hk, hp⟩
  constructor
  · unfold copy_object_prefix_impl
    rw [get_keys_prefix_impl_eq svc p hsorted]
    show some (match deriveDestKeys d (keysWithPfx svc p) with
      | .error e => ([], Except.error e)
      | .ok ds =>
          (List.zipWith (fun a b => CopyEvent.copyCall a b) (keysWithPfx svc p) ds,
            Except.ok ()))
      = some ([], Except.error PyErr.indexError)
    rw [deriveDestKeys_error d (keysWithPfx svc p) k hmem hdot]
  · obtain ⟨h1, h2⟩ := syncCopyLoop_bad_key d (keysWithPfx svc p) k hmem hdot
    refine ⟨(syncCopyLoop d (keysWithPfx svc p)).1,
      (syncCopyLoop d (keysWithPfx svc p)).2, ?_, h1, h2⟩
    unfold copy_file_prefix_impl
    rw [get_keys_prefix_impl_eq svc p hsorted]

/-- Witness for copy_prefix_extensionless_index_error at a one-key service
whose key has no extension. -/
theorem copy_prefix_extensionless_witness :
    List.Pairwise strLt [("docs/readme")]
    ∧ ("docs/readme") ∈ [("docs/readme")]
    ∧ strIsPfx ("docs/") ("docs/readme") = true
    ∧ '.' ∉ ("docs/readme").toList
    ∧ copy_object_prefix_impl [("docs/readme")] ("docs/") ("") =
        some ([], .error .indexError) :=
  ⟨by decide, by decide, by decide, by decide,
    (copy_prefix_extensionless_index_error [("docs/readme")] ("docs/") ("")
      ("docs/readme") (by decide) (by decide) (by decide) (by decide)).1⟩

theorem keysWithPfx_empty_str (svc : List String) : keysWithPfx svc ("") = svc := by
  unfold keysWithPfx
  refine List.filter_eq_self.mpr ?_
  intro k _
  rfl

/-- Claim C9: delete_object_prefix over a prefix matching no keys issues no
remote delete call and succeeds, and delete_object on a key absent from the
bucket listing issues no remote delete call and raises no error. -/
theorem delete_missing_is_noop (svc : List String) (p k : String)
    (hsorted : svc.Pairwise strLt)
    (hnone : ∀ x ∈ svc, strIsPfx p x = false)
    (hkvalid : pyStrip k ≠ "") (hkmem : k ∉ svc) :
    delete_object_prefix_impl svc p = some ([], .ok ())
    ∧ delete_object_impl svc k = some ([], .ok ()) := by
  constructor
  · unfold delete_object_prefix_impl
    rw [get_keys_prefix_impl_eq svc p hsorted]
    have hempty : keysWithPfx svc p = [] := by
      unfold keysWithPfx
      rw [List.filter_eq_nil_iff]
      intro a ha
      simp [hnone a ha]
    rw [hempty]
    rfl
  · unfold delete_object_impl
    rw [if_neg hkvalid]
    rw [get_keys_prefix_impl_eq svc ("") hsorted]
    rw [keysWithPfx_empty_str]
    simp [hkmem]

/-- Witness for delete_missing_is_noop over a one-key service. -/
theorem delete_missing_is_noop_witness :
    List.Pairwise strLt [("a.txt")]
    ∧ (∀ x ∈ [("a.txt")], strIsPfx ("z/") x = false)
    ∧ pyStrip ("b.txt") ≠ ""
    ∧ ("b.txt") ∉ [("a.txt")]
    ∧ (delete_object_prefix_impl [("a.txt")] ("z/") = some ([], .ok ())
      ∧ delete_object_impl [("a.txt")] ("b.txt") = some ([], .ok ())) :=
  ⟨by decide, by decide, by decide, by decide,
    delete_missing_is_noop [("a.txt")] ("z/") ("b.txt")
      (by decide) (by decide) (by decide) (by decide)⟩

theorem gated_inflight_invariant (s t : RunnerState) (h : Reaches GatedStep s t)
    (hs : s.inflight ≤ 5) : t.inflight ≤ 5 := by
  unfold Reaches at h
  induction h with
  | refl => exact hs
  | tail hst hstep ih =>
    cases hstep with
    | start hp hi => exact hi
    | finish hp => exact le_trans (Nat.sub_le _ _) ih

theorem ungated_reach_all (n : Nat) :
    ∀ j, j ≤ n → Reaches UngatedStep ⟨n, 0, 0⟩ ⟨n - j, j, 0⟩ := by
  intro j
  induction j with
  | zero =>
    intro _
    exact Relation.ReflTransGen.refl
  | succ j ih =>
    intro h
    have hj := ih (Nat.le_of_succ_le h)
    have hstep : UngatedStep ⟨n - j, j, 0⟩ ⟨n - j - 1, j + 1, 0⟩ :=
      UngatedStep.start ⟨n - j, j, 0⟩ (by show 0 < n - j; omega)
    have heq : n - j - 1 = n - (j + 1) := by omega
    rw [heq] at hstep
    exact Relation.ReflTransGen.tail hj hstep

/-- Claim C4 counterexample: delete_object never acquires the semaphore, so
with six delete tasks pending the scheduler reaches a state with six remote
delete calls in flight, exceeding the claimed bound of 5. -/
theorem delete_fanout_unbounded_counterexample :
    Reaches UngatedStep ⟨6, 0, 0⟩ ⟨0, 6, 0⟩ ∧ ¬ (6 ≤ 5) := by
  refine ⟨?_, by decide⟩
  exact ungated_reach_all 6 6 (le_refl 6)

/-- Claim C4 (amended): during copy_object_prefix every per-key copy holds
the client's semaphore of capacity 5 around its remote call, so the number of
copies in flight never exceeds 5 in any reachable scheduler state; the
deletes of delete_object_prefix are not semaphore-gated, so all n submitted
deletes can be in flight simultaneously. -/
theorem bulk_concurrency_bound (n : Nat) (s : RunnerState)
    (h : Reaches GatedStep ⟨n, 0, 0⟩ s) :
    s.inflight ≤ 5 ∧ Reaches UngatedStep ⟨n, 0, 0⟩ ⟨0, n, 0⟩ := by
  constructor
  · exact gated_inflight_invariant _ _ h (by simp)
  · have h2 := ungated_reach_all n n (le_refl n)
    have heq : n - n = 0 := Nat.sub_self n
    rw [heq] at h2
    exact h2

/-- Witness for bulk_concurrency_bound at the initial state of six tasks. -/
theorem bulk_concurrency_bound_witness :
    Reaches GatedStep ⟨6, 0, 0⟩ ⟨6, 0, 0⟩
    ∧ ((⟨6, 0, 0⟩ : RunnerState).inflight ≤ 5
      ∧ Reaches UngatedStep ⟨6, 0, 0⟩ ⟨0, 6, 0⟩) :=
  ⟨Relation.ReflTransGen.refl, bulk_concurrency_bound 6 ⟨6, 0, 0⟩ Relation.ReflTransGen.refl⟩

/-- Claim C7 counterexample: a two-page listing concurrent with a bucket
switch from A to B issues its second page call against B, so an operation in
flight does not keep using the bucket captured at call start. -/
theorem bucket_reread_counterexample :
    getKeysCalls switchSvcOf switchBucketAt ("") 3
      = some [(("A"), none), (("B"), some ("k1"))]
    ∧ switchBucketAt 0 = ("A")
    ∧ ("B") ≠ ("A") := by
  refine ⟨rfl, rfl, by decide⟩

theorem getKeysLoopBuckets_const (svcOf : String → List String)
    (bucketAt : Nat → String) (p : String) (b : String)
    (hconst : ∀ n, bucketAt n = b) :
    ∀ (fuel : Nat) (i : Nat) (keys resp : List String)
      (calls : List (String × Option String)), (∀ c ∈ calls, c.1 = b) →
      ∀ out, getKeysLoopBuckets svcOf bucketAt p i keys resp calls fuel = some out →
        ∀ c ∈ out, c.1 = b := by
  intro fuel
  induction fuel with
  | zero => intro i keys resp calls hc out h; cases h
  | succ fuel ih =>
    intro i keys resp calls hc out h
    rw [getKeysLoopBuckets] at h
    by_cases hre : resp.isEmpty
    · rw [if_pos hre] at h
      cases h
      exact hc
    · rw [if_neg hre] at h
      cases hgl : (keys ++ resp).getLast? with
      | none => rw [hgl] at h; cases h
      | some last =>
        rw [hgl] at h
        refine ih (i + 1) _ _ _ ?_ out h
        intro c hcm
        rcases List.mem_append.mp hcm with hm | hm
        · exact hc c hm
        · rw [List.mem_singleton.mp hm]
          exact hconst i

/-- Claim C7 (amended): the operations re-read the active bucket at each
remote call rather than capturing it once; consequently, when no concurrent
switch happens (the bucket value read is the same at every call), every page
call of get_keys_prefix is issued against the call-start bucket, but a
concurrent switch makes later calls use the new bucket (see the
counterexample). -/
theorem bucket_constant_when_no_switch (svcOf : String → List String)
    (bucketAt : Nat → String) (p : String) (fuel : Nat)
    (hconst : ∀ n, bucketAt n = bucketAt 0)
    (calls : List (String × Option String))
    (h : getKeysCalls svcOf bucketAt p fuel = some calls) :
    ∀ c ∈ calls, c.1 = bucketAt 0 := by
  unfold getKeysCalls at h
  refine getKeysLoopBuckets_const svcOf bucketAt p (bucketAt 0) hconst fuel 1 _ _ _
    ?_ calls h
  intro c hcm
  rw [List.mem_singleton.mp hcm]

/-- Witness for bucket_constant_when_no_switch with a constant bucket. -/
theorem bucket_constant_when_no_switch_witness :
    (∀ n : Nat, (fun _ : Nat => ("A")) n = (fun _ : Nat => ("A")) 0)
    ∧ getKeysCalls switchSvcOf (fun _ => ("A")) ("") 3
        = some [(("A"), none), (("A"), some ("k1"))]
    ∧ ∀ c ∈ [((("A") : String), (none : Option String)), (("A"), some ("k1"))],
        c.1 = (fun _ : Nat => ("A")) 0 :=
  ⟨fun _ => rfl, rfl,
    bucket_constant_when_no_switch switchSvcOf (fun _ => ("A")) ("") 3
      (fun _ => rfl) _ rfl⟩

end S3Lib
